import Mathlib

/-!
# Verification of the `davidmdm/env` configuration library

A shallow embedding of the library's core in Lean 4, with theorems checking
the natural-language specification against the code.

The embedding covers, translated from the Go source:

* the command-line tokenizer `CommandLineArgs` (`env.go` / `cfg.go`);
* the reflection-driven value-parsing engine `parse` (the `value.go` unit),
  over the kinds the specification's claims exercise: `string`, `bool`,
  `int`/`int64`, `uint8`, flat slices (including the `[]byte` short-circuit),
  flat maps, pointer indirection, custom text/binary unmarshaler hooks, and
  the silent no-op default for unsupported kinds.  Named types (such as
  `time.Duration`) and the float kinds fall outside the modelled fragment;
  no claim touches them;
* the scalar coercions `strconv.ParseBool`, `strconv.ParseUint` and
  `strconv.ParseInt` as called by the engine (base 0, bit size 8 or 64),
  including base auto-detection, underscore validation and range checks;
* lookup-function composition (`MakeEnvSet` / `joinLookupFuncs`);
* the resolve pass `EnvSet.Parse`.

Go strings are modelled as lists of characters; the character-class helpers
(`toLowerChar`, `isSpaceGo`) implement the ASCII fragment of the Unicode
tables Go consults, which agree on all ASCII input.
-/

/-- Go strings, modelled as lists of characters. -/
abbrev GoStr := List Char

/-- Convenience: the character list of a Lean string literal. -/
def gs (s : String) : GoStr := s.data

/-- `strings.HasPrefix(s, "-")`. -/
def startsWithDash (s : GoStr) : Bool :=
  match s with
  | c :: _ => c == '-'
  | [] => false

/-- ASCII fragment of the lowercasing `strings.ToLower` applies per rune. -/
def toLowerChar (c : Char) : Char :=
  if 'A' ≤ c ∧ c ≤ 'Z' then Char.ofNat (c.toNat + 32) else c

/-- `strings.ToLower`. -/
def goToLower (s : GoStr) : GoStr := s.map toLowerChar

/-- `strings.TrimLeft(s, "-")`: drop every leading `-`. -/
def trimLeftDash (s : GoStr) : GoStr := s.dropWhile (· == '-')

/-- `strings.Cut(s, "=")`: split around the first `=`, reporting whether one
was found; when none is found the result is `(s, "", false)`. -/
def cutEq : GoStr → GoStr × GoStr × Bool
  | [] => ([], [], false)
  | c :: rest =>
    if c == '=' then ([], rest, true)
    else
      let r := cutEq rest
      (c :: r.1, r.2.1, r.2.2)

/-- `strings.ReplaceAll(s, "_", "-")`. -/
def replUnderscore (s : GoStr) : GoStr :=
  s.map (fun c => if c == '_' then '-' else c)

/-- `strings.Join(parts, ",")`. -/
def joinComma : List GoStr → GoStr
  | [] => []
  | [s] => s
  | s :: rest => s ++ ',' :: joinComma rest

/-- `strings.Split(s, ",")`; note `Split("", ",")` is `[""]`. -/
def splitComma : GoStr → List GoStr
  | [] => [[]]
  | c :: rest =>
    if c == ',' then [] :: splitComma rest
    else
      match splitComma rest with
      | [] => [[c]]
      | s :: ss => (c :: s) :: ss

/-- ASCII fragment of the whitespace class used by `strings.TrimSpace`. -/
def isSpaceGo (c : Char) : Bool :=
  c == ' ' || c == '\t' || c == '\n' || c == '\r' || c == '\x0b' || c == '\x0c'

/-- `strings.TrimSpace`. -/
def trimSpace (s : GoStr) : GoStr :=
  ((s.dropWhile isSpaceGo).reverse.dropWhile isSpaceGo).reverse

/-! ## The command-line tokenizer `CommandLineArgs`

`env.go` and `cfg.go` contain the identical function: a left-to-right scan
building a `map[string][]string`, with one pending flag name carried between
iterations.  The Go map is modelled as an association list preserving first
insertion order (iteration order is irrelevant here: the table is only ever
queried by key). -/

/-- The `map[string][]string` built by the tokenizer. -/
abbrev ArgTable := List (GoStr × List GoStr)

/-- Go map read `m[k]`: the zero value `[]` when the key is absent. -/
def tblGet (m : ArgTable) (k : GoStr) : List GoStr :=
  match m.find? (fun p => p.1 == k) with
  | some p => p.2
  | none => []

/-- Go two-result map read: whether the key is present. -/
def tblHas (m : ArgTable) (k : GoStr) : Bool :=
  (m.find? (fun p => p.1 == k)).isSome

/-- Go map write `m[k] = v`. -/
def tblSet (m : ArgTable) (k : GoStr) (v : List GoStr) : ArgTable :=
  match m with
  | [] => [(k, v)]
  | p :: rest => if p.1 == k then (k, v) :: rest else p :: tblSet rest k v

/-- The tokenizer's loop state: the table built so far and the pending flag
name (`""` when no flag is pending). -/
structure ClState where
  m : ArgTable
  flag : GoStr

/-- One iteration of the tokenizer's `for _, arg := range args` loop. -/
def clStep (st : ClState) (arg : GoStr) : ClState :=
  if startsWithDash arg then
    let m :=
      if st.flag != [] && (tblGet st.m st.flag).length == 0 then
        tblSet st.m st.flag [gs "true"]
      else st.m
    let flag := goToLower (trimLeftDash arg)
    let c := cutEq flag
    if c.2.2 then
      { m := tblSet m c.1 (tblGet m c.1 ++ [c.2.1]), flag := [] }
    else
      { m := m, flag := flag }
  else if st.flag == [] then
    st
  else
    { m := tblSet st.m st.flag (tblGet st.m st.flag ++ [arg]), flag := [] }

/-- The table `CommandLineArgs(args...)` builds.  Faithful to the source:
there is no post-loop step, so a flag still pending when the argument list
ends is never entered into the table. -/
def commandLineArgsTable (args : List GoStr) : ArgTable :=
  (args.foldl clStep ⟨[], []⟩).m

/-- The lookup closure `CommandLineArgs` returns: lowercase the requested
name, turn `_` into `-`, and join the collected values with `,`. -/
def commandLineArgsLookup (args : List GoStr) (name : GoStr) : GoStr × Bool :=
  let n := replUnderscore (goToLower name)
  let m := commandLineArgsTable args
  (joinComma (tblGet m n), tblHas m n)

/-! ## Values and kinds for the value-parsing engine

The engine dispatches on `reflect.Kind`.  `Kind` enumerates the shapes the
claims exercise; `GoVal` is the corresponding universe of runtime values. -/

/-- The destination shapes dispatched on by the engine's `switch t.Kind()`. -/
inductive Kind where
  | kstring
  | kbool
  | kint
  | kuint8
  | kslice (elem : Kind)
  | kmap (key elem : Kind)
  | kptr (elem : Kind)
  | kother
deriving DecidableEq, Repr

/-- Runtime values held by destinations. -/
inductive GoVal where
  | strv (s : GoStr)
  | boolv (b : Bool)
  | intv (n : Int)
  | uintv (n : Nat)
  | bytesv (s : GoStr)
  | slicev (xs : List GoVal)
  | mapv (entries : List (GoVal × GoVal))
  | ptrv (v : Option GoVal)
  | otherv
deriving Repr

mutual

/-- Structural (Go `==`) equality on values, used for map keys. -/
def govalBEq : GoVal → GoVal → Bool
  | .strv a, .strv b => a == b
  | .boolv a, .boolv b => a == b
  | .intv a, .intv b => a == b
  | .uintv a, .uintv b => a == b
  | .bytesv a, .bytesv b => a == b
  | .slicev xs, .slicev ys => govalListBEq xs ys
  | .mapv xs, .mapv ys => govalPairsBEq xs ys
  | .ptrv a, .ptrv b => govalOptBEq a b
  | .otherv, .otherv => true
  | _, _ => false
  termination_by structural a _ => a

def govalListBEq : List GoVal → List GoVal → Bool
  | [], [] => true
  | x :: xs, y :: ys => govalBEq x y && govalListBEq xs ys
  | _, _ => false
  termination_by structural a _ => a

def govalPairsBEq : List (GoVal × GoVal) → List (GoVal × GoVal) → Bool
  | (k1, v1) :: xs, (k2, v2) :: ys =>
    govalBEq k1 k2 && govalBEq v1 v2 && govalPairsBEq xs ys
  | [], [] => true
  | _, _ => false
  termination_by structural a _ => a

def govalOptBEq : Option GoVal → Option GoVal → Bool
  | none, none => true
  | some a, some b => govalBEq a b
  | _, _ => false
  termination_by structural a _ => a

end

mutual

theorem govalBEq_iff : ∀ (a b : GoVal), govalBEq a b = true ↔ a = b
  | a, b => by
    cases a <;> cases b <;>
      simp only [govalBEq, beq_iff_eq, reduceCtorEq,
        GoVal.strv.injEq, GoVal.boolv.injEq, GoVal.intv.injEq, GoVal.uintv.injEq,
        GoVal.bytesv.injEq, GoVal.slicev.injEq, GoVal.mapv.injEq, GoVal.ptrv.injEq]
    case slicev.slicev xs ys => exact govalListBEq_iff xs ys
    case mapv.mapv xs ys => exact govalPairsBEq_iff xs ys
    case ptrv.ptrv a b => exact govalOptBEq_iff a b

theorem govalListBEq_iff : ∀ (a b : List GoVal), govalListBEq a b = true ↔ a = b
  | [], [] => by simp [govalListBEq]
  | [], _ :: _ => by simp [govalListBEq]
  | _ :: _, [] => by simp [govalListBEq]
  | x :: xs, y :: ys => by
    simp only [govalListBEq, Bool.and_eq_true, List.cons.injEq]
    exact and_congr (govalBEq_iff x y) (govalListBEq_iff xs ys)

theorem govalPairsBEq_iff :
    ∀ (a b : List (GoVal × GoVal)), govalPairsBEq a b = true ↔ a = b
  | [], [] => by simp [govalPairsBEq]
  | [], _ :: _ => by simp [govalPairsBEq]
  | _ :: _, [] => by simp [govalPairsBEq]
  | (k1, v1) :: xs, (k2, v2) :: ys => by
    simp only [govalPairsBEq, Bool.and_eq_true, List.cons.injEq, Prod.mk.injEq,
      and_assoc]
    rw [govalBEq_iff k1 k2, govalBEq_iff v1 v2, govalPairsBEq_iff xs ys]

theorem govalOptBEq_iff : ∀ (a b : Option GoVal), govalOptBEq a b = true ↔ a = b
  | none, none => by simp [govalOptBEq]
  | none, some _ => by simp [govalOptBEq]
  | some _, none => by simp [govalOptBEq]
  | some a, some b => by
    simp only [govalOptBEq, Option.some.injEq]
    exact govalBEq_iff a b

end

instance : DecidableEq GoVal := fun a b =>
  decidable_of_iff (govalBEq a b = true) (govalBEq_iff a b)

/-- The zero value of each kind (`reflect.New(t).Elem()`); a nil slice and a
nil map are identified with the empty ones, which the engine never
distinguishes. -/
def zeroVal : Kind → GoVal
  | .kstring => .strv []
  | .kbool => .boolv false
  | .kint => .intv 0
  | .kuint8 => .uintv 0
  | .kslice _ => .slicev []
  | .kmap _ _ => .mapv []
  | .kptr _ => .ptrv none
  | .kother => .otherv

/-! ## Scalar coercion: the `strconv` calls made by the engine

`strconv.ParseBool`, and `strconv.ParseUint` / `strconv.ParseInt` as invoked
with base `0` (auto-detected) and the destination's bit size.  Error values
are modelled by their `NumError` message text. -/

/-- `%q` on a plain string (escape-free content, as in every input the
claims exercise). -/
def quoteGo (s : GoStr) : GoStr := '"' :: s ++ ['"']

/-- The message of a `strconv.NumError`. -/
def numErrorMsg (fn num reason : GoStr) : GoStr :=
  gs "strconv." ++ fn ++ gs ": parsing " ++ quoteGo num ++ gs ": " ++ reason

def reasonBad : GoStr := gs "invalid syntax"

def reasonRange : GoStr := gs "value out of range"

/-- `strconv.ParseBool`. -/
def parseBoolGo (s : GoStr) : Except GoStr Bool :=
  if s == gs "1" || s == gs "t" || s == gs "T" || s == gs "true"
      || s == gs "TRUE" || s == gs "True" then
    .ok true
  else if s == gs "0" || s == gs "f" || s == gs "F" || s == gs "false"
      || s == gs "FALSE" || s == gs "False" then
    .ok false
  else
    .error (numErrorMsg (gs "ParseBool") s reasonBad)

/-- `strconv`'s internal `lower`: set the ASCII case bit. -/
def lowerGo (c : Char) : Char := Char.ofNat (c.toNat ||| 32)

/-- `strconv`'s error taxonomy needed by `ParseInt`: a syntax error or a
range error, each carrying its message. -/
inductive StrconvErr where
  | badForm (msg : GoStr)
  | outOfRange (msg : GoStr)
deriving DecidableEq, Repr

/-- `strconv.underscoreOK`'s scan over the number proper, carrying the class
of the last character seen (`^` start, `0` digit/base prefix, `_`
underscore, `!` other). -/
def usScan (hex : Bool) : Char → GoStr → Bool
  | saw, [] => saw != '_'
  | saw, c :: rest =>
    if ('0' ≤ c && c ≤ '9') || (hex && 'a' ≤ lowerGo c && lowerGo c ≤ 'f') then
      usScan hex '0' rest
    else if c == '_' then
      if saw != '0' then false else usScan hex '_' rest
    else if saw == '_' then false
    else usScan hex '!' rest

/-- `strconv.underscoreOK`: underscores must sit between digits (a base
prefix counting as a digit). -/
def underscoreOK (s : GoStr) : Bool :=
  let s1 :=
    match s with
    | c :: rest => if c == '-' || c == '+' then rest else s
    | [] => s
  match s1 with
  | '0' :: c2 :: rest =>
    if lowerGo c2 == 'b' || lowerGo c2 == 'o' || lowerGo c2 == 'x' then
      usScan (lowerGo c2 == 'x') '0' rest
    else usScan false '^' s1
  | _ => usScan false '^' s1

def maxUint64 : Nat := 2 ^ 64 - 1

/-- The digit loop of `strconv.ParseUint` (base 0 call, so `_` is accepted
here and validated after the loop).  `s0` is the full input for error
messages; overflow past `maxVal` is a range error. -/
def uintLoop (s0 : GoStr) (base maxVal cutoff : Nat) :
    GoStr → Nat → Bool → Except StrconvErr (Nat × Bool)
  | [], n, us => .ok (n, us)
  | c :: rest, n, us =>
    if c == '_' then uintLoop s0 base maxVal cutoff rest n true
    else
      let dOpt : Option Nat :=
        if '0' ≤ c && c ≤ '9' then some (c.toNat - '0'.toNat)
        else if 'a' ≤ lowerGo c && lowerGo c ≤ 'z' then
          some ((lowerGo c).toNat - 'a'.toNat + 10)
        else none
      match dOpt with
      | none => .error (.badForm (numErrorMsg (gs "ParseUint") s0 reasonBad))
      | some d =>
        if d ≥ base then
          .error (.badForm (numErrorMsg (gs "ParseUint") s0 reasonBad))
        else if n ≥ cutoff then
          .error (.outOfRange (numErrorMsg (gs "ParseUint") s0 reasonRange))
        else
          let n1 := n * base + d
          if n1 > maxVal then
            .error (.outOfRange (numErrorMsg (gs "ParseUint") s0 reasonRange))
          else uintLoop s0 base maxVal cutoff rest n1 us

/-- `strconv.ParseUint(s, 0, bitSize)` with its error kind: base
auto-detection (`0b`/`0o`/`0x` prefixes, legacy leading-`0` octal), the
digit loop, then underscore validation. -/
def parseUintGoE (s0 : GoStr) (bitSize : Nat) : Except StrconvErr Nat :=
  if s0 == [] then .error (.badForm (numErrorMsg (gs "ParseUint") s0 reasonBad))
  else
    let bs : Nat × GoStr :=
      match s0 with
      | '0' :: c2 :: rest =>
        if lowerGo c2 == 'b' && rest.length ≥ 1 then (2, rest)
        else if lowerGo c2 == 'o' && rest.length ≥ 1 then (8, rest)
        else if lowerGo c2 == 'x' && rest.length ≥ 1 then (16, rest)
        else (8, c2 :: rest)
      | ['0'] => (8, [])
      | _ => (10, s0)
    let cutoff := maxUint64 / bs.1 + 1
    let maxVal := 2 ^ bitSize - 1
    match uintLoop s0 bs.1 maxVal cutoff bs.2 0 false with
    | .error e => .error e
    | .ok (n, us) =>
      if us && !underscoreOK s0 then
        .error (.badForm (numErrorMsg (gs "ParseUint") s0 reasonBad))
      else .ok n

/-- `strconv.ParseUint` as the engine sees it: just the error message. -/
def parseUintGo (s : GoStr) (bitSize : Nat) : Except GoStr Nat :=
  match parseUintGoE s bitSize with
  | .ok n => .ok n
  | .error (.badForm m) => .error m
  | .error (.outOfRange m) => .error m

/-- `strconv.ParseInt(s, 0, bitSize)`: strip the sign, convert the unsigned
part, rewrite a syntax error under `ParseInt`'s name, and clamp-check
against the signed cutoff.  A range error from `ParseUint` leaves
`un = maxVal`, which then runs through the same clamp checks. -/
def parseIntGo (s0 : GoStr) (bitSize : Nat) : Except GoStr Int :=
  if s0 == [] then .error (numErrorMsg (gs "ParseInt") s0 reasonBad)
  else
    let ns : Bool × GoStr :=
      match s0 with
      | '+' :: rest => (false, rest)
      | '-' :: rest => (true, rest)
      | _ => (false, s0)
    let neg := ns.1
    let cutoff := 2 ^ (bitSize - 1)
    let clamp : Nat → Except GoStr Int := fun un =>
      if !neg && un ≥ cutoff then
        .error (numErrorMsg (gs "ParseInt") s0 reasonRange)
      else if neg && un > cutoff then
        .error (numErrorMsg (gs "ParseInt") s0 reasonRange)
      else .ok (if neg then -(un : Int) else (un : Int))
    match parseUintGoE ns.2 bitSize with
    | .error (.badForm _) => .error (numErrorMsg (gs "ParseInt") s0 reasonBad)
    | .error (.outOfRange _) => clamp (2 ^ bitSize - 1)
    | .ok un => clamp un

/-! ## The value-parsing engine `parse`

`parse(v reflect.Value, text string, topLevel bool) error` from the engine
unit.  The two unmarshaler-hook checks happen before pointer stripping and
kind dispatch, on the destination's type; `parseKind` is the rest of the
function (pointer loop plus `switch t.Kind()`).  Destinations are modelled
as a value together with its outcome: `parseKind` returns the error (if
any) *and* the destination's final value, capturing in-place mutation.
Container elements are parsed through the engine recursively; element types
carry no hooks (a pointer-receiver unmarshaler is not visible through
`slice.Index(i).Interface()`), so the recursion enters at the kind
dispatch. -/

/-- The element loop of the slice branch: parse each substring into a fresh
zero element, stopping at the first failure. -/
def firstErr (pe : GoStr → Option GoStr × GoVal) :
    List GoStr → Except GoStr (List GoVal)
  | [] => .ok []
  | sub :: rest =>
    let r := pe sub
    match r.1 with
    | some e => .error e
    | none =>
      match firstErr pe rest with
      | .error e => .error e
      | .ok xs => .ok (r.2 :: xs)

/-- `reflect.Value.SetMapIndex`: insert or overwrite the entry for `k`. -/
def setMapIndex (m : List (GoVal × GoVal)) (k v : GoVal) :
    List (GoVal × GoVal) :=
  match m with
  | [] => [(k, v)]
  | p :: rest => if govalBEq p.1 k then (k, v) :: rest else p :: setMapIndex rest k v

/-- The entry loop of the map branch: split each entry at the first `=`
(skipping entries without one), parse key then value into fresh zero
values, wrap failures, and insert successes into the accumulated map. -/
def mapEntriesLoop (pk pv : GoStr → Option GoStr × GoVal) :
    List GoStr → List (GoVal × GoVal) → Except GoStr (List (GoVal × GoVal))
  | [], tgt => .ok tgt
  | e :: rest, tgt =>
    let c := cutEq e
    if !c.2.2 then mapEntriesLoop pk pv rest tgt
    else
      let rk := pk c.1
      match rk.1 with
      | some err =>
        .error (gs "failed to parse key: " ++ c.1 ++ gs ": " ++ err)
      | none =>
        let rv := pv c.2.1
        match rv.1 with
        | some err =>
          .error (gs "failed to parse value at key: " ++ c.1 ++ gs ": " ++ err)
        | none => mapEntriesLoop pk pv rest (setMapIndex tgt rk.2 rv.2)

/-- Pointer stripping plus the `switch t.Kind()` dispatch of `parse`.
Returns the error (if any) and the destination's value afterwards. -/
def parseKind : Kind → GoVal → GoStr → Bool → Option GoStr × GoVal
  | .kstring, _, text, _ => (none, .strv text)
  | .kbool, v, text, _ =>
    match parseBoolGo text with
    | .ok b => (none, .boolv b)
    | .error e => (some e, v)
  | .kint, v, text, _ =>
    match parseIntGo text 64 with
    | .ok n => (none, .intv n)
    | .error e => (some e, v)
  | .kuint8, v, text, _ =>
    match parseUintGo text 8 with
    | .ok n => (none, .uintv n)
    | .error e => (some e, v)
  | .kptr elem, v, text, top =>
    let inner :=
      match v with
      | .ptrv (some iv) => iv
      | _ => zeroVal elem
    let r := parseKind elem inner text top
    (r.1, .ptrv (some r.2))
  | .kslice elem, v, text, top =>
    if !top then (some (gs "cannot support deep slices"), v)
    else if elem == .kuint8 then (none, .bytesv text)
    else
      let v1 := if trimSpace text == [] then GoVal.slicev [] else v
      match firstErr (fun sub => parseKind elem (zeroVal elem) sub false)
          (splitComma text) with
      | .error e => (some e, v1)
      | .ok xs => (none, .slicev xs)
  | .kmap kk kv, v, text, top =>
    if !top then (some (gs "cannot support deep maps"), v)
    else
      let t := trimSpace text
      if t == [] then (none, v)
      else
        match mapEntriesLoop (fun sub => parseKind kk (zeroVal kk) sub false)
            (fun sub => parseKind kv (zeroVal kv) sub false) (splitComma t) [] with
        | .error e => (some e, v)
        | .ok tgt => (none, .mapv tgt)
  | .kother, v, _, _ => (none, v)

/-- A user-supplied pointer-receiver `UnmarshalText`/`UnmarshalBinary`
method: from the raw bytes and the current receiver value, the returned
error and the receiver's value afterwards. -/
abbrev Hook := GoStr → GoVal → Option GoStr × GoVal

/-- A destination's static type: its kind plus the optional decoding hooks
its method set exposes. -/
structure GoType where
  kind : Kind
  textHook : Option Hook := none
  binHook : Option Hook := none

/-- The engine's entry point `parse`: the `TextUnmarshaler` check, then the
`BinaryUnmarshaler` check, then pointer stripping and kind dispatch. -/
def parse (t : GoType) (v : GoVal) (text : GoStr) (topLevel : Bool) :
    Option GoStr × GoVal :=
  match t.textHook with
  | some hook => hook text v
  | none =>
    match t.binHook with
    | some hook => hook text v
    | none => parseKind t.kind v text topLevel

/-! ## Lookup composition and the resolve pass

`LookupFunc`, `joinLookupFuncs` and `MakeEnvSet` from `env.go`, and the
`EnvSet.Parse` loop.  The process environment (`os.LookupEnv`) is an
external collaborator and enters as a parameter. -/

/-- `LookupFunc`: name to (raw value, found). -/
abbrev Lookup := GoStr → GoStr × Bool

/-- `joinLookupFuncs`: try each function in order, returning at the first
`found`; with none found the last result (zero values when the list is
empty) falls out of the loop. -/
def joinLookupFuncs (fns : List Lookup) : Lookup := fun key =>
  match fns with
  | [] => ([], false)
  | f :: rest =>
    let r := f key
    if r.2 then r
    else
      match rest with
      | [] => r
      | _ :: _ => joinLookupFuncs rest key

/-- The lookup function `MakeEnvSet(funcs...)` installs: nil entries are
dropped, and with none left the process-environment lookup is used. -/
def makeEnvSetLookup (osEnv : Lookup) (funcs : List (Option Lookup)) : Lookup :=
  let fns := funcs.filterMap id
  if fns.isEmpty then osEnv else joinLookupFuncs fns

/-- One registered binding (`flag` in `env.go`): the destination's type and
current value, and the options `{required, fallback}`. -/
structure FlagB where
  ty : GoType
  dst : GoVal
  required : Bool
  fallback : GoVal

/-- The message of `fmt.Errorf("%q is required but not found", name)`. -/
def requiredMsg (name : GoStr) : GoStr :=
  quoteGo name ++ gs " is required but not found"

/-- The message of `fmt.Errorf("failed to parse %s: %v", name, err)`. -/
def parseFailMsg (name : GoStr) (e : GoStr) : GoStr :=
  gs "failed to parse " ++ name ++ gs ": " ++ e

/-- The loop body of `EnvSet.Parse` for one binding: look the name up,
apply the required/fallback policy or run the engine, and report the
recorded error (if any) with the binding afterwards. -/
def resolveFlag (lookup : Lookup) (name : GoStr) (fl : FlagB) :
    Option GoStr × FlagB :=
  let r0 := lookup name
  if !r0.2 then
    if fl.required then (some (requiredMsg name), fl)
    else (none, { fl with dst := fl.fallback })
  else
    let r := parse fl.ty fl.dst r0.1 true
    match r.1 with
    | some e => (some (parseFailMsg name e), { fl with dst := r.2 })
    | none => (none, { fl with dst := r.2 })

/-- `EnvSet.Parse`: resolve every binding, collecting the recorded error
messages in iteration order and mutating destinations in place. -/
def envParse (lookup : Lookup) :
    List (GoStr × FlagB) → List GoStr × List (GoStr × FlagB)
  | [] => ([], [])
  | (name, fl) :: rest =>
    let r := resolveFlag lookup name fl
    let rr := envParse lookup rest
    ((match r.1 with | some e => e :: rr.1 | none => rr.1), (name, r.2) :: rr.2)

/-- `errors.Join`: `nil` for an empty list, otherwise one combined error
whose message joins the messages with newlines. -/
def joinErrors : List GoStr → Option GoStr
  | [] => none
  | [e] => some e
  | e :: rest =>
    match joinErrors rest with
    | some m => some (e ++ '\n' :: m)
    | none => some e

/-! ## Claim-side (specification-worded) descriptions

Definitions in this section follow the specification's own wording; the
claim theorems compare them with the code-derived definitions above. -/

/-- Per the spec's resolve policy: the error (if any) one binding records:
found → a wrapped engine error when the engine fails; not found →
"required but not found" exactly when the binding is required. -/
def bindingErrSpec (lookup : Lookup) (p : GoStr × FlagB) : Option GoStr :=
  let r0 := lookup p.1
  if r0.2 then
    match (parse p.2.ty p.2.dst r0.1 true).1 with
    | some e => some (parseFailMsg p.1 e)
    | none => none
  else if p.2.required then some (requiredMsg p.1) else none

/-- Per the spec's resolve policy: where one binding's destination ends up:
found → whatever the engine leaves; not found and required → untouched; not
found and not required → the fallback. -/
def bindingResolveSpec (lookup : Lookup) (p : GoStr × FlagB) : GoStr × FlagB :=
  let r0 := lookup p.1
  if r0.2 then (p.1, { p.2 with dst := (parse p.2.ty p.2.dst r0.1 true).2 })
  else if p.2.required then p
  else (p.1, { p.2 with dst := p.2.fallback })

/-- Per the spec's composition contract: the value of the first adapter in
order reporting found, if any. -/
def firstFound (fns : List Lookup) (name : GoStr) : Option GoStr :=
  fns.findSome? fun f => if (f name).2 then some (f name).1 else none

/-- Per the claim's wording for sequences: the error of the first element
substring that fails to parse, if any. -/
def firstElemError (elem : Kind) (items : List GoStr) : Option GoStr :=
  items.findSome? fun sub => (parseKind elem (zeroVal elem) sub false).1

/-- Per the claim's wording for maps: the wrapped error an entry produces,
if its key or value substring fails to parse. -/
def entryError (kk kv : Kind) (e : GoStr) : Option GoStr :=
  let key := (cutEq e).1
  match (parseKind kk (zeroVal kk) key false).1 with
  | some c => some (gs "failed to parse key: " ++ key ++ gs ": " ++ c)
  | none =>
    match (parseKind kv (zeroVal kv) (cutEq e).2.1 false).1 with
    | some c => some (gs "failed to parse value at key: " ++ key ++ gs ": " ++ c)
    | none => none

/-- Per the claim's wording for maps: the parsed (key, value) of an entry. -/
def entryPair (kk kv : Kind) (e : GoStr) : GoVal × GoVal :=
  ((parseKind kk (zeroVal kk) (cutEq e).1 false).2,
   (parseKind kv (zeroVal kv) (cutEq e).2.1 false).2)

/-- Claim-side description of top-level map parsing: trimmed-empty text
succeeds leaving the destination untouched; otherwise only the entries
containing `=` matter (the rest are silently skipped), the first failing
entry's wrapped error aborts the operation with the destination untouched,
and on success the destination holds the parsed entries inserted in order
(last insertion winning). -/
def mapParseSpec (kk kv : Kind) (v : GoVal) (text : GoStr) :
    Option GoStr × GoVal :=
  let t := trimSpace text
  if t == [] then (none, v)
  else
    let entries := (splitComma t).filter (fun e => (cutEq e).2.2)
    match entries.findSome? (entryError kk kv) with
    | some err => (some err, v)
    | none =>
      (none, .mapv (entries.foldl
        (fun tgt e => setMapIndex tgt (entryPair kk kv e).1 (entryPair kk kv e).2) []))

/-- Go-map association lookup, for stating the last-entry-wins property. -/
def lookupGoMap (m : List (GoVal × GoVal)) (k : GoVal) : Option GoVal :=
  (m.find? (fun p => govalBEq p.1 k)).map (fun p => p.2)

/-- A hook whose result does not depend on the receiver's current value
(only on the input text). -/
def ValueInsensitive (f : Hook) : Prop := ∀ text v w, f text v = f text w

/-- The proviso the C8 amendment adds: whichever decoding hook of the type
`parse` would invoke is value-insensitive.  Types without hooks satisfy it
vacuously. -/
def HookStable (t : GoType) : Prop :=
  (∀ f, t.textHook = some f → ValueInsensitive f) ∧
  (t.textHook = none → ∀ f, t.binHook = some f → ValueInsensitive f)

/-! ## Sanity checks against the repository's tests -/

example : gs "ab" = ['a', 'b'] := rfl

example :
    parseKind (.kslice .kstring) (.slicev []) [] true
      = (none, .slicev [.strv []]) := by decide

example :
    parseKind (.kmap .kstring .kint) (.mapv []) (gs "x=3,y=1") true
      = (none, .mapv [(.strv ['x'], .intv 3), (.strv ['y'], .intv 1)]) := by
  decide

example :
    (parseKind (.kmap .kbool .kint) (.mapv []) (gs "3=4") true).1
      = some (gs "failed to parse key: 3: strconv.ParseBool: parsing \"3\": invalid syntax") := by
  decide

example :
    (parseKind (.kmap .kint .kbool) (.mapv []) (gs "3=4") true).1
      = some (gs "failed to parse value at key: 3: strconv.ParseBool: parsing \"4\": invalid syntax") := by
  decide

example : parseKind .kint .otherv (gs "-1") true = (none, .intv (-1)) := by decide

example : parseKind (.kslice .kuint8) .otherv (gs "ab") true = (none, .bytesv ['a', 'b']) := by decide

example : commandLineArgsLookup [gs "-force"] (gs "FORCE") = ([], false) := by
  decide

example :
    commandLineArgsLookup [gs "-force", gs "-x=1"] (gs "FORCE")
      = (gs "true", true) := by decide

example :
    commandLineArgsLookup [gs "--database-url", gs "db"] (gs "DATABASE_URL")
      = (gs "db", true) := by decide

example :
    commandLineArgsLookup [gs "--input", gs "a", gs "--input", gs "b"] (gs "INPUT")
      = (gs "a,b", true) := by decide

/-! ## Claim theorems -/

/-- C1.  The claim states that a flag token ending the argument list with no
value resolves to boolean-true, as mid-list pending flags do.  The code has
no post-loop resolution step, so the trailing flag is never entered in the
table: the evaluation below shows `-force` as final token is reported
not-found (contrast with the same flag followed by another flag token,
where the claimed behaviour does occur). -/
theorem commandLineArgs_trailing_flag_dropped :
    commandLineArgsLookup [gs "-force"] (gs "FORCE") = ([], false) ∧
    commandLineArgsLookup [gs "-force", gs "--other=1"] (gs "FORCE")
      = (gs "true", true) := by
  decide

/-- C2.  The claim states that a top-level non-byte sequence destination
parses empty text to the empty sequence.  The code's empty-text branch
lacks a `return`: after setting the empty slice it falls through to
`strings.Split`, which yields `[""]`, so a `[]string` destination receives
a one-element slice and a `[]bool` destination gets a parse error (with the
destination left set to the empty slice). -/
theorem slice_empty_text_falls_through :
    parseKind (.kslice .kstring) (.slicev []) [] true
      = (none, .slicev [.strv []]) ∧
    (parseKind (.kslice .kbool) (.slicev [.boolv true]) [] true).1.isSome = true ∧
    (parseKind (.kslice .kbool) (.slicev [.boolv true]) [] true).2 = .slicev [] := by
  decide

/-- C4.  A destination type exposing the text-decoding hook has `parse`
invoke that hook on the raw text and the current value and return its
result verbatim, whatever the underlying kind and whether or not a binary
hook is also present; a type exposing only the binary hook is treated the
same way with second priority. -/
theorem parse_hook_priority (k : Kind) (bh : Option Hook) (f : Hook)
    (v : GoVal) (text : GoStr) (top : Bool) :
    parse ⟨k, some f, bh⟩ v text top = f text v ∧
    parse ⟨k, none, some f⟩ v text top = f text v :=
  ⟨rfl, rfl⟩

/-- C10.  A failing top-level map parse leaves the destination unchanged:
entries accumulate in a fresh map that is committed only on full success. -/
theorem map_failure_leaves_destination (kk kv : Kind) (v : GoVal) (text : GoStr)
    (h : (parseKind (.kmap kk kv) v text true).1.isSome = true) :
    (parseKind (.kmap kk kv) v text true).2 = v := by
  simp only [parseKind, Bool.not_true, Bool.false_eq_true, if_false] at h ⊢
  by_cases ht : (trimSpace text == []) = true
  · simp [ht] at h
  · simp only [ht, if_false] at h ⊢
    rcases hm : mapEntriesLoop (fun sub => parseKind kk (zeroVal kk) sub false)
        (fun sub => parseKind kv (zeroVal kv) sub false)
        (splitComma (trimSpace text)) [] with e | tgt
    · simp [hm]
    · simp [hm] at h

/-- Witness for C10 at the repository's own test input `3=4` against
`map[bool]int`. -/
theorem map_failure_leaves_destination_witness :
    (parseKind (.kmap .kbool .kint) (.mapv [(.boolv true, .intv 7)]) (gs "3=4") true).1.isSome
        = true ∧
    (parseKind (.kmap .kbool .kint) (.mapv [(.boolv true, .intv 7)]) (gs "3=4") true).2
        = .mapv [(.boolv true, .intv 7)] :=
  ⟨by decide, map_failure_leaves_destination _ _ _ _ (by decide)⟩

/-- Helper: `joinErrors` is `none` exactly on the empty message list. -/
theorem joinErrors_eq_none_iff (es : List GoStr) :
    joinErrors es = none ↔ es = [] := by
  cases es with
  | nil => simp [joinErrors]
  | cons e rest =>
    cases rest with
    | nil => simp [joinErrors]
    | cons f rest' =>
      simp only [joinErrors]
      rcases joinErrors (f :: rest') with _ | m <;> simp

/-- C3.  One resolve pass visits every binding: the recorded errors are
exactly the per-binding errors of the spec's policy in iteration order (so
resolution never stops at a failing binding), destinations are updated
per-binding as the policy says (required-but-missing leaves the destination
untouched and records the "required but not found" message; missing and
not required assigns the fallback and records nothing), and the aggregate
error is nil exactly when no error was recorded. -/
theorem envParse_characterization (lookup : Lookup) (flags : List (GoStr × FlagB)) :
    (envParse lookup flags).1 = flags.filterMap (bindingErrSpec lookup) ∧
    (envParse lookup flags).2 = flags.map (bindingResolveSpec lookup) ∧
    (joinErrors (envParse lookup flags).1 = none ↔ (envParse lookup flags).1 = []) := by
  refine ⟨?_, ?_, ?_⟩
  · induction flags with
    | nil => rfl
    | cons p rest ih =>
      obtain ⟨name, fl⟩ := p
      simp only [envParse, List.filterMap_cons]
      rw [← ih]
      have hstep : (resolveFlag lookup name fl).1 = bindingErrSpec lookup (name, fl) := by
        simp only [resolveFlag, bindingErrSpec]
        rcases h0 : lookup name with ⟨val, found⟩
        cases found with
        | false =>
          by_cases hreq : fl.required <;> simp [hreq]
        | true =>
          rcases (parse fl.ty fl.dst val true).1 with _ | e <;> simp
      rw [← hstep]
      rcases (resolveFlag lookup name fl).1 with _ | e <;> simp
  · induction flags with
    | nil => rfl
    | cons p rest ih =>
      obtain ⟨name, fl⟩ := p
      simp only [envParse, List.map_cons]
      rw [← ih]
      have hstep : (name, (resolveFlag lookup name fl).2)
          = bindingResolveSpec lookup (name, fl) := by
        simp only [resolveFlag, bindingResolveSpec]
        rcases h0 : lookup name with ⟨val, found⟩
        cases found with
        | false =>
          by_cases hreq : fl.required <;> simp [hreq]
        | true =>
          rcases (parse fl.ty fl.dst val true).1 with _ | e <;> simp
      rw [← hstep]
  · exact joinErrors_eq_none_iff _

/-- Helper for C6: on a nonempty adapter list, the join returns the first
found result and reports found exactly when some adapter does. -/
theorem joinLookupFuncs_firstFound (fns : List Lookup) (name : GoStr) :
    fns ≠ [] →
    (∀ v, firstFound fns name = some v → joinLookupFuncs fns name = (v, true)) ∧
    (firstFound fns name = none → (joinLookupFuncs fns name).2 = false) := by
  induction fns with
  | nil => intro h; exact absurd rfl h
  | cons f rest ih =>
    intro _
    constructor
    · intro v hv
      simp only [firstFound, List.findSome?_cons] at hv
      rcases hfound : (f name).2 with _ | _
      · simp only [hfound, Bool.false_eq_true, if_false] at hv
        cases rest with
        | nil => simp [firstFound, List.findSome?_nil] at hv
        | cons g rest' =>
          have := ((ih (by simp)).1 v hv)
          simpa [joinLookupFuncs, hfound] using this
      · simp only [hfound, if_true, Option.some.injEq] at hv
        have : f name = (v, true) := by
          rcases hf : f name with ⟨a, b⟩
          rw [hf] at hfound hv
          simp at hfound hv
          simp [hv, hfound]
        simp [joinLookupFuncs, this]
    · intro hn
      simp only [firstFound, List.findSome?_cons] at hn
      rcases hfound : (f name).2 with _ | _
      · simp only [hfound, Bool.false_eq_true, if_false] at hn
        cases rest with
        | nil => simp [joinLookupFuncs, hfound]
        | cons g rest' =>
          have := ((ih (by simp)).2 hn)
          simpa [joinLookupFuncs, hfound] using this
      · simp [hfound] at hn
  
/-- C6.  The lookup `MakeEnvSet` installs: nil entries are dropped; the
composed lookup returns the first found result among the remaining
functions in order, and reports not-found only when every function does;
with no functions left it is exactly the process-environment lookup. -/
theorem makeEnvSet_composition (osEnv : Lookup) (funcs : List (Option Lookup))
    (name : GoStr) :
    (∀ v, firstFound (funcs.filterMap id) name = some v →
        makeEnvSetLookup osEnv funcs name = (v, true)) ∧
    (funcs.filterMap id ≠ [] → firstFound (funcs.filterMap id) name = none →
        (makeEnvSetLookup osEnv funcs name).2 = false) ∧
    (funcs.filterMap id = [] → makeEnvSetLookup osEnv funcs name = osEnv name) := by
  refine ⟨?_, ?_, ?_⟩
  · intro v hv
    have hne : funcs.filterMap id ≠ [] := by
      intro h
      rw [h] at hv
      simp [firstFound] at hv
    have := (joinLookupFuncs_firstFound (funcs.filterMap id) name hne).1 v hv
    simpa [makeEnvSetLookup, List.isEmpty_iff, hne] using this
  · intro hne hn
    have := (joinLookupFuncs_firstFound (funcs.filterMap id) name hne).2 hn
    simpa [makeEnvSetLookup, List.isEmpty_iff, hne] using this
  · intro h
    simp [makeEnvSetLookup, List.isEmpty_iff, h]

/-- Witness for C6: a three-entry adapter list with a nil in the middle.
The first adapter wins for `A`; the second supplies `B`; with only nil
entries the process environment answers. -/
theorem makeEnvSet_composition_witness :
    makeEnvSetLookup (fun _ => (gs "env", true))
        [some (fun n => if n == gs "A" then (gs "1", true) else ([], false)),
         none,
         some (fun _ => (gs "2", true))] (gs "A") = (gs "1", true) ∧
    makeEnvSetLookup (fun _ => (gs "env", true))
        [some (fun n => if n == gs "A" then (gs "1", true) else ([], false)),
         none,
         some (fun _ => (gs "2", true))] (gs "B") = (gs "2", true) ∧
    makeEnvSetLookup (fun _ => (gs "env", true)) [none, none] (gs "A")
      = (gs "env", true) := by
  refine ⟨?_, ?_, ?_⟩
  · exact (makeEnvSet_composition _ _ _).1 (gs "1") (by decide)
  · exact (makeEnvSet_composition _ _ _).1 (gs "2") (by decide)
  · exact (makeEnvSet_composition _ _ _).2.2 (by rfl)

/-- Helper: one leading dash is consumed by `TrimLeft`. -/
theorem trimLeftDash_cons (s : GoStr) : trimLeftDash ('-' :: s) = trimLeftDash s := by
  simp [trimLeftDash, List.dropWhile]

/-- Helper: a string not starting with a dash is untouched by `TrimLeft`. -/
theorem trimLeftDash_no_dash (s : GoStr) (h : startsWithDash s = false) :
    trimLeftDash s = s := by
  cases s with
  | nil => rfl
  | cons c t =>
    simp only [startsWithDash] at h
    simp [trimLeftDash, List.dropWhile, h]

/-- Helper: `startsWithDash` only looks at the head of an append. -/
theorem startsWithDash_append (s t : GoStr) (h : s ≠ []) :
    startsWithDash (s ++ t) = startsWithDash s := by
  cases s with
  | nil => exact absurd rfl h
  | cons c s' => rfl

/-- Helper: `Cut` around the first `=` splits an append at its marker. -/
theorem cutEq_append (a b : GoStr) (h : '=' ∉ a) :
    cutEq (a ++ '=' :: b) = (a, b, true) := by
  induction a with
  | nil => simp [cutEq]
  | cons c a' ih =>
    have hc : c ≠ '=' := fun hc => h (hc ▸ List.mem_cons_self c a')
    have h' : '=' ∉ a' := fun hm => h (List.mem_cons_of_mem _ hm)
    simp only [List.cons_append, cutEq, beq_iff_eq, hc, if_false]
    rw [show (a'.append ('=' :: b) : GoStr) = a' ++ '=' :: b from rfl, ih h']

/-- Helper: `Cut` on a string without `=` reports not-found, returning the
whole string. -/
theorem cutEq_not_found (a : GoStr) (h : '=' ∉ a) :
    cutEq a = (a, [], false) := by
  induction a with
  | nil => rfl
  | cons c a' ih =>
    have hc : c ≠ '=' := fun hc => h (hc ▸ List.mem_cons_self c a')
    have h' : '=' ∉ a' := fun hm => h (List.mem_cons_of_mem _ hm)
    simp only [cutEq, beq_iff_eq, hc, if_false]
    rw [ih h']

/-- Helper: lowercasing distributes over the `=` separator. -/
theorem goToLower_append_eq (a b : GoStr) :
    goToLower (a ++ '=' :: b) = goToLower a ++ '=' :: goToLower b := by
  have : toLowerChar '=' = '=' := by decide
  simp [goToLower, this]

/-- C9.  In a `--NAME=VALUE` (or `-NAME=VALUE`) token the whole dash-stripped
token is lowercased before the split on `=`, so the stored value is the
lowercase form of VALUE; a value given as a separate token (`--NAME VALUE`)
is stored verbatim. -/
theorem commandLineArgs_eq_value_lowercased (nm val : GoStr)
    (h0 : nm ≠ []) (h1 : startsWithDash nm = false)
    (h2 : '=' ∉ goToLower nm) (h3 : startsWithDash val = false) :
    commandLineArgsTable ['-' :: '-' :: (nm ++ '=' :: val)]
      = [(goToLower nm, [goToLower val])] ∧
    commandLineArgsTable ['-' :: (nm ++ '=' :: val)]
      = [(goToLower nm, [goToLower val])] ∧
    commandLineArgsTable ['-' :: '-' :: nm, val]
      = [(goToLower nm, [val])] := by
  have hne : nm ++ '=' :: val ≠ [] := by simp
  have hdash : startsWithDash (nm ++ '=' :: val) = false := by
    rw [startsWithDash_append nm ('=' :: val) h0]; exact h1
  have htrim : trimLeftDash (nm ++ '=' :: val) = nm ++ '=' :: val :=
    trimLeftDash_no_dash _ hdash
  have hlower : goToLower (trimLeftDash ('-' :: '-' :: (nm ++ '=' :: val)))
      = goToLower nm ++ '=' :: goToLower val := by
    rw [trimLeftDash_cons, trimLeftDash_cons, htrim, goToLower_append_eq]
  have hlower1 : goToLower (trimLeftDash ('-' :: (nm ++ '=' :: val)))
      = goToLower nm ++ '=' :: goToLower val := by
    rw [trimLeftDash_cons, htrim, goToLower_append_eq]
  have hcut : cutEq (goToLower nm ++ '=' :: goToLower val)
      = (goToLower nm, goToLower val, true) := cutEq_append _ _ h2
  refine ⟨?_, ?_, ?_⟩
  · show (clStep ⟨[], []⟩ ('-' :: '-' :: (nm ++ '=' :: val))).m = _
    simp [clStep, startsWithDash, hlower, hcut, tblSet, tblGet]
  · show (clStep ⟨[], []⟩ ('-' :: (nm ++ '=' :: val))).m = _
    simp [clStep, startsWithDash, hlower1, hcut, tblSet, tblGet]
  · have hnm : trimLeftDash ('-' :: '-' :: nm) = nm := by
      rw [trimLeftDash_cons, trimLeftDash_cons, trimLeftDash_no_dash nm h1]
    have hcut1 : cutEq (goToLower nm) = (goToLower nm, [], false) :=
      cutEq_not_found _ h2
    have hlnm : goToLower nm ≠ [] := by
      cases nm with
      | nil => exact absurd rfl h0
      | cons c t => simp [goToLower]
    show (clStep (clStep ⟨[], []⟩ ('-' :: '-' :: nm)) val).m = _
    have hstep1 : clStep ⟨[], []⟩ ('-' :: '-' :: nm) = ⟨[], goToLower nm⟩ := by
      simp [clStep, startsWithDash, hnm, hcut1]
    rw [hstep1]
    simp [clStep, h3, hlnm, tblSet, tblGet]

/-- Witness for C9 at `NAME` / `VaLuE`. -/
theorem commandLineArgs_eq_value_lowercased_witness :
    commandLineArgsTable [gs "--NAME=VaLuE"] = [(gs "name", [gs "value"])] ∧
    commandLineArgsTable [gs "-NAME=VaLuE"] = [(gs "name", [gs "value"])] ∧
    commandLineArgsTable [gs "--NAME", gs "VaLuE"] = [(gs "name", [gs "VaLuE"])] := by
  have h := commandLineArgs_eq_value_lowercased (gs "NAME") (gs "VaLuE")
    (by decide) (by decide) (by decide) (by decide)
  exact h

/-- Helper: the element loop returns exactly the first element failure. -/
theorem firstErr_eq_of_findSome (pe : GoStr → Option GoStr × GoVal)
    (items : List GoStr) (e : GoStr)
    (h : items.findSome? (fun sub => (pe sub).1) = some e) :
    firstErr pe items = .error e := by
  induction items with
  | nil => simp [List.findSome?_nil] at h
  | cons sub rest ih =>
    rw [List.findSome?_cons] at h
    rcases h1 : (pe sub).1 with _ | e'
    · rw [h1] at h
      simp only [firstErr, h1]
      rw [ih h]
    · rw [h1] at h
      simp only [Option.some.injEq] at h
      subst h
      simp [firstErr, h1]

/-- C7 counterexample: on whitespace-only text whose single element
substring fails to parse, the `[]bool` destination is not left unchanged —
the fall-through empty-text branch has already overwritten it with the
empty slice when the element error is returned. -/
theorem slice_whitespace_failure_mutates :
    (parseKind (.kslice .kbool) (.slicev [.boolv true]) [' '] true).1.isSome = true ∧
    (parseKind (.kslice .kbool) (.slicev [.boolv true]) [' '] true).2
      ≠ .slicev [.boolv true] := by
  decide

/-- C7 (amended).  A failing element aborts a top-level non-byte sequence
parse with the first failing element's error, and no partial sequence is
committed: the destination is unchanged unless the text was
whitespace-only, in which case it has already been set to the empty
sequence. -/
theorem slice_element_failure (elem : Kind) (v : GoVal) (text e : GoStr)
    (h1 : elem ≠ .kuint8)
    (h2 : firstElemError elem (splitComma text) = some e) :
    parseKind (.kslice elem) v text true
      = (some e, if trimSpace text == [] then GoVal.slicev [] else v) := by
  have hfe : firstErr (fun sub => parseKind elem (zeroVal elem) sub false)
      (splitComma text) = .error e :=
    firstErr_eq_of_findSome _ _ _ h2
  have hne : (elem == Kind.kuint8) = false := by
    simp only [beq_eq_false_iff_ne, ne_eq]
    exact h1
  simp [parseKind, hne, hfe]

/-- Witness for C7 (amended) at `true,x` into `[]bool`. -/
theorem slice_element_failure_witness :
    parseKind (.kslice .kbool) (.slicev [.boolv false]) (gs "true,x") true
      = (some (numErrorMsg (gs "ParseBool") (gs "x") reasonBad),
         if trimSpace (gs "true,x") == [] then GoVal.slicev []
         else GoVal.slicev [.boolv false]) :=
  slice_element_failure .kbool (.slicev [.boolv false]) (gs "true,x") _
    (by decide) (by decide)

/-- Helper: the map entry loop equals its claim-side description, for any
starting accumulator. -/
theorem mapEntriesLoop_characterization (kk kv : Kind) :
    ∀ (entries : List GoStr) (tgt : List (GoVal × GoVal)),
    mapEntriesLoop (fun sub => parseKind kk (zeroVal kk) sub false)
        (fun sub => parseKind kv (zeroVal kv) sub false) entries tgt =
      match (entries.filter (fun e => (cutEq e).2.2)).findSome? (entryError kk kv) with
      | some err => .error err
      | none =>
        .ok ((entries.filter (fun e => (cutEq e).2.2)).foldl
          (fun tgt e => setMapIndex tgt (entryPair kk kv e).1 (entryPair kk kv e).2) tgt)
  | [], tgt => by simp [mapEntriesLoop]
  | e :: rest, tgt => by
    rcases hc : (cutEq e).2.2 with _ | _
    · have hskip : mapEntriesLoop (fun sub => parseKind kk (zeroVal kk) sub false)
          (fun sub => parseKind kv (zeroVal kv) sub false) (e :: rest) tgt
          = mapEntriesLoop (fun sub => parseKind kk (zeroVal kk) sub false)
              (fun sub => parseKind kv (zeroVal kv) sub false) rest tgt := by
        simp [mapEntriesLoop, hc]
      rw [hskip, List.filter_cons, hc]
      simp only [Bool.false_eq_true, if_false]
      exact mapEntriesLoop_characterization kk kv rest tgt
    · rw [List.filter_cons, hc]
      simp only [if_true, List.findSome?_cons]
      rcases hk : (parseKind kk (zeroVal kk) (cutEq e).1 false).1 with _ | ck
      · rcases hv : (parseKind kv (zeroVal kv) (cutEq e).2.1 false).1 with _ | cv
        · have hee : entryError kk kv e = none := by
            simp [entryError, hk, hv]
          rw [hee]
          have hloop : mapEntriesLoop (fun sub => parseKind kk (zeroVal kk) sub false)
              (fun sub => parseKind kv (zeroVal kv) sub false) (e :: rest) tgt
              = mapEntriesLoop (fun sub => parseKind kk (zeroVal kk) sub false)
                  (fun sub => parseKind kv (zeroVal kv) sub false) rest
                  (setMapIndex tgt (entryPair kk kv e).1 (entryPair kk kv e).2) := by
            simp [mapEntriesLoop, hc, hk, hv, entryPair]
          rw [hloop, List.foldl_cons]
          exact mapEntriesLoop_characterization kk kv rest _
        · have hee : entryError kk kv e
              = some (gs "failed to parse value at key: " ++ (cutEq e).1 ++ gs ": " ++ cv) := by
            simp [entryError, hk, hv]
          rw [hee]
          simp [mapEntriesLoop, hc, hk, hv]
      · have hee : entryError kk kv e
            = some (gs "failed to parse key: " ++ (cutEq e).1 ++ gs ": " ++ ck) := by
          simp [entryError, hk]
        rw [hee]
        simp [mapEntriesLoop, hc, hk]

/-- C5.  Top-level map parsing behaves exactly as the claim describes
(`mapParseSpec`), and insertion overwrites the binding for an equal key, so
the last entry wins on duplicates. -/
theorem map_parse_matches_spec (kk kv : Kind) (v : GoVal) (text : GoStr) :
    parseKind (.kmap kk kv) v text true = mapParseSpec kk kv v text ∧
    (∀ (tgt : List (GoVal × GoVal)) (k val : GoVal),
        lookupGoMap (setMapIndex tgt k val) k = some val) := by
  constructor
  · by_cases ht : (trimSpace text == []) = true
    · simp [parseKind, mapParseSpec, ht]
    · simp only [parseKind, Bool.not_true, Bool.false_eq_true, if_false,
        mapParseSpec, ht]
      rw [mapEntriesLoop_characterization kk kv (splitComma (trimSpace text)) []]
      rcases hfs : (List.filter (fun e => (cutEq e).2.2)
          (splitComma (trimSpace text))).findSome? (entryError kk kv) with _ | err
      · simp
      · simp
  · intro tgt k val
    induction tgt with
    | nil =>
      have hrefl : govalBEq k k = true := (govalBEq_iff k k).mpr rfl
      simp [setMapIndex, lookupGoMap, List.find?, hrefl]
    | cons p rest ih =>
      rcases hpk : govalBEq p.1 k with _ | _
      · simp only [setMapIndex, hpk, Bool.false_eq_true, if_false]
        simp only [lookupGoMap, List.find?, hpk] at ih ⊢
        exact ih
      · have hrefl : govalBEq k k = true := (govalBEq_iff k k).mpr rfl
        simp [setMapIndex, hpk, lookupGoMap, List.find?, hrefl]

/-- Re-running the kind dispatcher on its own output value reproduces the
same result: element and entry loops work from fresh zero values, so only
the incoming destination value could differ, and every branch either
ignores it or passes it through. -/
theorem parseKind_idem (k : Kind) :
    ∀ (v : GoVal) (text : GoStr) (top : Bool),
      parseKind k (parseKind k v text top).2 text top = parseKind k v text top := by
  induction k with
  | kstring => intro v text top; rfl
  | kbool =>
    intro v text top
    rcases h : parseBoolGo text with e | b <;> simp [parseKind, h]
  | kint =>
    intro v text top
    rcases h : parseIntGo text 64 with e | n <;> simp [parseKind, h]
  | kuint8 =>
    intro v text top
    rcases h : parseUintGo text 8 with e | n <;> simp [parseKind, h]
  | kptr elem ih =>
    intro v text top
    have hdef : ∀ w : GoVal, parseKind (.kptr elem) w text top
        = ((parseKind elem
              (match w with | .ptrv (some iv) => iv | _ => zeroVal elem) text top).1,
           .ptrv (some (parseKind elem
              (match w with | .ptrv (some iv) => iv | _ => zeroVal elem) text top).2)) :=
      fun w => rfl
    rw [hdef v, hdef (.ptrv (some (parseKind elem
        (match v with | .ptrv (some iv) => iv | _ => zeroVal elem) text top).2))]
    rw [show (match GoVal.ptrv (some (parseKind elem
        (match v with | .ptrv (some iv) => iv | _ => zeroVal elem) text top).2) with
        | .ptrv (some iv) => iv | _ => zeroVal elem)
        = (parseKind elem
            (match v with | .ptrv (some iv) => iv | _ => zeroVal elem) text top).2
      from rfl]
    rw [ih]
  | kslice elem ih =>
    intro v text top
    cases top with
    | false => simp [parseKind]
    | true =>
      by_cases he : elem = Kind.kuint8
      · subst he; simp [parseKind]
      · have hne : (elem == Kind.kuint8) = false := by
          simp only [beq_eq_false_iff_ne, ne_eq]; exact he
        rcases hf : firstErr (fun sub => parseKind elem (zeroVal elem) sub false)
            (splitComma text) with e | xs
        · by_cases ht : (trimSpace text == []) = true
          · simp [parseKind, hne, hf, ht]
          · simp [parseKind, hne, hf, ht]
        · simp [parseKind, hne, hf]
  | kmap kk kv ihk ihv =>
    intro v text top
    cases top with
    | false => simp [parseKind]
    | true =>
      by_cases ht : (trimSpace text == []) = true
      · simp [parseKind, ht]
      · rcases hm : mapEntriesLoop (fun sub => parseKind kk (zeroVal kk) sub false)
            (fun sub => parseKind kv (zeroVal kv) sub false)
            (splitComma (trimSpace text)) [] with e | tgt
        · simp [parseKind, ht, hm]
        · simp [parseKind, ht, hm]
  | kother => intro v text top; rfl

/-- Re-running the engine on its own output value reproduces the result,
for hook-stable types. -/
theorem parse_idem (t : GoType) (h : HookStable t) (v : GoVal) (text : GoStr)
    (top : Bool) :
    parse t (parse t v text top).2 text top = parse t v text top := by
  rcases ht : t.textHook with _ | f
  · rcases hb : t.binHook with _ | f
    · simp only [parse, ht, hb]
      exact parseKind_idem t.kind v text top
    · simp only [parse, ht, hb]
      exact h.2 ht f hb text _ v
  · simp only [parse, ht]
    exact h.1 f ht text _ v

/-- One binding resolves to the same outcome when re-run from its own
result, for hook-stable destination types. -/
theorem resolveFlag_idem (lookup : Lookup) (name : GoStr) (fl : FlagB)
    (h : HookStable fl.ty) :
    resolveFlag lookup name (resolveFlag lookup name fl).2
      = resolveFlag lookup name fl := by
  rcases h0 : lookup name with ⟨val, found⟩
  cases found with
  | false =>
    by_cases hreq : fl.required
    · simp [resolveFlag, h0, hreq]
    · simp [resolveFlag, h0, hreq]
  | true =>
    have hidem := parse_idem fl.ty h fl.dst val true
    rcases hr : (parse fl.ty fl.dst val true) with ⟨e?, w⟩
    rw [hr] at hidem
    rcases e? with _ | e
    · simp [resolveFlag, h0, hr, hidem]
    · simp [resolveFlag, h0, hr, hidem]

/-- C8 (amended).  With a pure lookup, resolving a registry twice gives,
after the second pass, the same destinations and the same recorded errors
as after the first — provided every binding's decoding hooks (if any) are
value-insensitive. -/
theorem envParse_idem (lookup : Lookup) (flags : List (GoStr × FlagB))
    (h : ∀ p ∈ flags, HookStable p.2.ty) :
    envParse lookup (envParse lookup flags).2 = envParse lookup flags := by
  induction flags with
  | nil => rfl
  | cons p rest ih =>
    obtain ⟨name, fl⟩ := p
    have hhead : HookStable fl.ty := h (name, fl) (List.mem_cons_self _ _)
    have htail : ∀ q ∈ rest, HookStable q.2.ty :=
      fun q hq => h q (List.mem_cons_of_mem _ hq)
    simp only [envParse]
    rw [resolveFlag_idem lookup name fl hhead, ih htail]

/-- C8 counterexample: a registry with one binding whose text hook appends
the input to the receiver.  The composed lookup is a pure constant
function, yet the destination differs after the second resolve pass (`"a"`
then `"aa"`). -/
theorem envParse_second_run_differs :
    ((envParse (fun _ => (gs "a", true))
        ((envParse (fun _ => (gs "a", true))
          [(gs "X", ⟨⟨.kother,
              some (fun text w => (none,
                match w with | .strv s => .strv (s ++ text) | w' => w')), none⟩,
            .strv [], false, .strv []⟩)]).2)).2.map (fun p => p.2.dst))
      ≠
    ((envParse (fun _ => (gs "a", true))
        [(gs "X", ⟨⟨.kother,
            some (fun text w => (none,
              match w with | .strv s => .strv (s ++ text) | w' => w')), none⟩,
          .strv [], false, .strv []⟩)]).2.map (fun p => p.2.dst)) := by
  decide

/-- Witness for C8 (amended): a hook-free string binding resolved twice. -/
theorem envParse_idem_witness :
    envParse (fun _ => (gs "hi", true))
        ((envParse (fun _ => (gs "hi", true))
          [(gs "A", ⟨⟨.kstring, none, none⟩, .strv [], false, .strv []⟩)]).2)
      = envParse (fun _ => (gs "hi", true))
          [(gs "A", ⟨⟨.kstring, none, none⟩, .strv [], false, .strv []⟩)] :=
  envParse_idem _ _ (by
    intro p hp
    simp only [List.mem_singleton] at hp
    subst hp
    exact ⟨fun f hf => by simp at hf, fun _ f hf => by simp at hf⟩)
